import Mathlib

/-!
Shallow embedding of the save-file registry, filter engine and restore
aggregation logic of `src/snapshot/gui/restore.py`, together with theorems
checking the specification's claims about them.

Conventions used throughout:
* Python strings are Lean `String`s; Python's `needle in hay` substring test
  is `pyIn`.
* Python dictionaries keyed by file name are association lists
  `List (String × _)`; Python `dict` iteration order is insertion order,
  which the association lists reproduce.
* Python sets are deduplicated lists; only membership in them is ever used
  by the embedded code, so the arbitrary iteration order of a Python `set`
  is modelled by the list order produced by `List.dedup`/`List.filter`.
* Filesystem time stamps are `Nat`; the directory passed to `get_save_files`
  models the result of the glob over the save directory.
-/

namespace Snapshot

/-- Character-list matcher: `strMatchAt needle hay` is true when `needle`
occurs at the head of `hay` (models the per-offset comparison inside
Python's substring test). -/
def strMatchAt : List Char → List Char → Bool
  | [], _ => true
  | _ :: _, [] => false
  | c :: cs, d :: ds => c == d && strMatchAt cs ds

/-- `strFindSub needle hay` is true when `needle` occurs somewhere in `hay`. -/
def strFindSub (needle : List Char) : List Char → Bool
  | [] => strMatchAt needle []
  | c :: tl => strMatchAt needle (c :: tl) || strFindSub needle tl

/-- Python's `needle in hay` for strings: substring containment, with the
empty needle contained in everything. -/
def pyIn (needle hay : String) : Bool := strFindSub needle.data hay.data

/-- The metadata dictionary stored for a file in the registry table
(`meta_data` in `get_save_files` after defaulting): the optional
`req_file_name` key, and the `comment`/`labels` keys which are always
present once `get_save_files` has inserted their defaults. -/
structure MetaData where
  reqName : Option String
  comment : String
  labels : List String
deriving DecidableEq

/-- One value of the registry table `self.file_list`: the parsed
`pvs_list` payload (item name, captured value), the metadata dictionary
and the stored `modif_time`. -/
structure Entry where
  pvs : List (String × Int)
  meta : MetaData
  modifTime : Nat
deriving DecidableEq

/-- One on-disk candidate file as seen by `get_save_files`: its base name,
its current modification time, the raw header fields as returned by
`parse_from_save_file` (`req_file_name`, `comment`, `labels` keys may each
be absent), its payload and the parser's error list. -/
structure SnapFile where
  name : String
  mtime : Nat
  reqName : Option String
  comment : Option String
  labels : Option (List String)
  pvs : List (String × Int)
  parseErr : List String
deriving DecidableEq

/-- Dictionary lookup on the registry table (`file_name in current_files`
plus the subsequent indexing). -/
def lookupTable : List (String × Entry) → String → Option Entry
  | [], _ => none
  | p :: rest, fn => if p.1 = fn then some p.2 else lookupTable rest fn

/-- The freshness test of `get_save_files`:
`(file_name not in current_files) or
 (current_files[file_name]["modif_time"] != os.path.getmtime(file_path))`. -/
def needsParse (current : List (String × Entry)) (f : SnapFile) : Bool :=
  match lookupTable current f.name with
  | none => true
  | some e => e.modifTime != f.mtime

/-- Python's `s.startswith(pre)`: `pre` occurs at the head of `s`. -/
def pyStartsWith (s pre : String) : Bool := strMatchAt pre.data s.data

/-- The characters before the first `.` (all of them when there is none). -/
def takeUntilDot : List Char → List Char
  | [] => []
  | c :: cs => if c == '.' then [] else c :: takeUntilDot cs

/-- `req_file_name.split(".")[0]`: the part of the request file name before
its first dot. -/
def reqStem (req : String) : String := String.mk (takeUntilDot req.data)

/-- The admission test of `get_save_files` (restore.py lines 445-446):
`("req_file_name" in meta_data and meta_data["req_file_name"] == req_file_name)
 or file_name.startswith(req_file_name.split(".")[0] + "_")`. -/
def file_matches (req : String) (f : SnapFile) : Bool :=
  (match f.reqName with
   | some r => r == req
   | none => false)
  || pyStartsWith f.name (reqStem req ++ "_")

/-- The table entry built by `get_save_files` for an admitted file:
missing `comment` defaults to `""`, missing `labels` to `[]`, and the
observed modification time is recorded. -/
def mkEntry (f : SnapFile) : Entry :=
  { pvs := f.pvs
    meta := { reqName := f.reqName, comment := f.comment.getD "", labels := f.labels.getD [] }
    modifTime := f.mtime }

/-- The scan loop of `get_save_files` over the globbed directory listing,
threading the `parsed_save_files` and `err_to_report` accumulators.  A file
is examined when new or stale (`needsParse`), admitted when `file_matches`;
parse errors of admitted files are reported; the loop breaks once more than
10 files have been parsed in this call. -/
def get_save_files_go (req : String) (current : List (String × Entry)) :
    List SnapFile → List (String × Entry) → List (String × List String) →
    List (String × Entry) × List (String × List String)
  | [], pacc, eacc => (pacc, eacc)
  | f :: rest, pacc, eacc =>
    if needsParse current f && file_matches req f then
      if (pacc ++ [(f.name, mkEntry f)]).length > 10 then
        (pacc ++ [(f.name, mkEntry f)],
         if f.parseErr.isEmpty then eacc else eacc ++ [(f.name, f.parseErr)])
      else
        get_save_files_go req current rest (pacc ++ [(f.name, mkEntry f)])
          (if f.parseErr.isEmpty then eacc else eacc ++ [(f.name, f.parseErr)])
    else get_save_files_go req current rest pacc eacc

/-- `get_save_files(save_dir, current_files)`: returns the dictionary of
newly parsed files and the error report list.  `dir` is the glob result. -/
def get_save_files (req : String) (dir : List SnapFile)
    (current : List (String × Entry)) :
    List (String × Entry) × List (String × List String) :=
  get_save_files_go req current dir [] []

/-- The registry-side state touched by `update_file_list_selector` and
`evt_delete_files`: the table `self.file_list` and the shared
`common_settings["existing_labels"]` suggestion list. -/
structure RegState where
  table : List (String × Entry)
  existing_labels : List String
deriving DecidableEq

/-- The body of `update_file_list_selector` for one `(modified_file,
modified_data)` pair (restore.py lines 472-528).

New file: the entry is appended to the table and its labels not already
suggested are appended to `existing_labels`
(`existing_labels += list(set(labels) - set(existing_labels))`).

Already-listed file: `labels_to_add`/`labels_to_remove` are the set
differences of the new and old label lists; added labels are appended
unconditionally (`existing_labels += labels_to_add`), `meta_data` and
`pvs_list` of the table entry are replaced — the stored `modif_time` is
left untouched, exactly as in the source, which never copies
`modified_data["modif_time"]` in this branch — and each removed label is
dropped from `existing_labels` only when no file of the updated table
still carries it.  (Python's `list.remove` would raise if the label were
absent; under the soundness invariant proved below it is always present.) -/
def table_replace (t : List (String × Entry)) (fn : String) (d : Entry)
    (old : Entry) : List (String × Entry) :=
  t.map (fun p =>
    if p.1 = fn then (fn, { d with modifTime := old.modifTime }) else p)

/-- The `labels_to_remove` pruning loop: a label is dropped from the
suggestion list (`existing_labels.remove(label)`, first occurrence) only
when no file of the updated table still carries it. -/
def labels_prune (tbl : List (String × Entry)) (toRem : List String)
    (acc : List String) : List String :=
  toRem.foldl
    (fun acc l =>
      if tbl.all (fun p => decide (l ∉ p.2.meta.labels)) then acc.erase l
      else acc) acc

def update_one (s : RegState) (fn : String) (d : Entry) : RegState :=
  match lookupTable s.table fn with
  | none =>
      { table := s.table ++ [(fn, d)]
        existing_labels :=
          s.existing_labels ++
            d.meta.labels.dedup.filter (fun l => decide (l ∉ s.existing_labels)) }
  | some old =>
      { table := table_replace s.table fn d old
        existing_labels :=
          labels_prune (table_replace s.table fn d old)
            (old.meta.labels.dedup.filter (fun l => decide (l ∉ d.meta.labels)))
            (s.existing_labels ++
              d.meta.labels.dedup.filter
                (fun l => decide (l ∉ old.meta.labels))) }

/-- `update_file_list_selector(modif_file_list)`: folds `update_one` over
the parsed-files dictionary in its iteration order. -/
def update_file_list_selector (s : RegState) (parsed : List (String × Entry)) :
    RegState :=
  parsed.foldl (fun st p => update_one st p.1 p.2) s

/-- The registry effect of deleting one selected file in
`evt_delete_files`: `self.file_list.pop(selected_file)`; the
`existing_labels` list is not touched by that handler. -/
def delete_file (s : RegState) (fn : String) : RegState :=
  { s with table := s.table.filter (fun p => p.1 != fn) }

/-- A registry mutation: one entry of a reconciliation's changed-file
dictionary (add or modify), or the deletion of one file. -/
inductive RegOp where
  | upd (fn : String) (d : Entry)
  | del (fn : String)

/-- Apply one registry operation. -/
def apply_op (s : RegState) : RegOp → RegState
  | RegOp.upd fn d => update_one s fn d
  | RegOp.del fn => delete_file s fn

/-- Apply a sequence of registry operations. -/
def apply_ops (s : RegState) (ops : List RegOp) : RegState :=
  ops.foldl apply_op s

/-- One reconciliation pass of `start_file_list_update`: run
`get_save_files` against the current table, then fold the result through
`update_file_list_selector`.  Returns the new state and the changed-set
(the `parsed_save_files` dictionary). -/
def reconcile (req : String) (dir : List SnapFile) (s : RegState) :
    RegState × List (String × Entry) :=
  (update_file_list_selector s (get_save_files req dir s.table).1,
   (get_save_files req dir s.table).1)

/-- Soundness of the label suggestions: every label carried by a file
currently in the table is present in `existing_labels`. -/
def labels_sound (s : RegState) : Prop :=
  ∀ p ∈ s.table, ∀ l ∈ p.2.meta.labels, l ∈ s.existing_labels

/-- The directory listing has pairwise distinct file names (true of any
real directory). -/
def nodupNames (dir : List SnapFile) : Prop :=
  (dir.map SnapFile.name).Nodup

/-- One output line of `gen_index_file` for one globbed file:
`'["' + basename + '",' + first_line[1:-1] + '],\n'`. -/
def idx_line (fn ln : String) : String :=
  "[\x22" ++ fn ++ "\x22," ++ (ln.drop 1).dropRight 1 ++ "],\n"

/-- `gen_index_file` (restore.py lines 407-419) modelled on the stream
content: it writes `'[\n'`, then one `idx_line` per globbed file (given
here as pairs of base name and first line), then executes
`seek(tell()-3)` — which raises `ValueError: negative seek position`
when fewer than 3 characters were written, i.e. exactly when the glob
matched no file — and finally overwrites from that offset with
`']\n]\n'`. -/
def idx_content (entries : List (String × String)) : String :=
  entries.foldl (fun acc e => acc ++ idx_line e.1 e.2) "[\n"

def gen_index_file (entries : List (String × String)) : Except String String :=
  if (idx_content entries).length < 3 then
    Except.error "negative seek position"
  else
    Except.ok ((idx_content entries).take ((idx_content entries).length - 3)
      ++ "]\n]\n")

/-- The widget-side state read and written by
`start_file_list_update_new`: the selector rows (file name plus the meta
dictionary stored via `item.setData`) and the shared
`common_settings["existing_labels"]` list. -/
structure FileMeta where
  comment : String
  labels : List String
deriving DecidableEq

structure GuiState where
  rows : List (String × FileMeta)
  existing_labels : List String
deriving DecidableEq

/-- The insertion loop of `start_file_list_update_new` over the decoded
index data: rows whose file name is already listed (`fn in fnSet`) are
skipped; otherwise a new selector row is appended, the labels of the new
row are added to the local set (`existing_labels.update(labels)`), and
the loop breaks once more than 10 rows have been added. -/
def sflun_go (fnSet : List String) :
    List (String × FileMeta) → List (String × FileMeta) → List String → Nat →
    List (String × FileMeta) × List String
  | [], rows, labs, _ => (rows, labs)
  | (fn, meta) :: rest, rows, labs, n =>
    if fn ∈ fnSet then sflun_go fnSet rest rows labs n
    else
      if n + 1 > 10 then
        (rows ++ [(fn, meta)],
         labs ++ meta.labels.dedup.filter (fun l => decide (l ∉ labs)))
      else
        sflun_go fnSet rest (rows ++ [(fn, meta)])
          (labs ++ meta.labels.dedup.filter (fun l => decide (l ∉ labs))) (n + 1)

/-- `start_file_list_update_new` (restore.py lines 368-404), state part:
the local name `existing_labels` is immediately rebound to a fresh
`set(...)` built from the shared list, so all subsequent `update` calls
mutate only that local set; the shared
`common_settings["existing_labels"]` list is never written.  The new
selector rows are appended by the loop.  (The call reads the index file
produced by `gen_index_file`; its decoded content is the `idx_data`
argument.) -/
def start_file_list_update_new (s : GuiState)
    (idx_data : List (String × FileMeta)) : GuiState :=
  { rows := (sflun_go (s.rows.map Prod.fst) idx_data s.rows
      s.existing_labels.dedup 0).1
    existing_labels := s.existing_labels }

/-- The filter predicate `self.filter_input.file_filter`: name text,
comment text and the label keyword list. -/
structure FileFilter where
  name : String
  comment : String
  keys : List String
deriving DecidableEq

/-- The per-row hidden decision of `filter_file_list_selector`
(restore.py lines 545-559), transcribed guard for guard:

`if name_filter and not name_filter in fn: hidden`
`elif comment_filter and not name_filter in meta.get("comment"): hidden`
(the source really tests `name_filter` against the comment here)
`elif keys_filter and not keys_filter.issubset(meta.get('labels')): hidden`. -/
def row_hidden (filt : FileFilter) (fn : String) (meta : FileMeta) : Bool :=
  if filt.name != "" && !(pyIn filt.name fn) then true
  else if filt.comment != "" && !(pyIn filt.name meta.comment) then true
  else if !filt.keys.isEmpty
      && !(filt.keys.all (fun k => decide (k ∈ meta.labels))) then true
  else false

/-- `filter_file_list_selector` over the whole selector: pairs every row
with its computed hidden flag. -/
def filter_file_list_selector (filt : FileFilter)
    (rows : List (String × FileMeta)) : List ((String × FileMeta) × Bool) :=
  rows.map (fun r => (r, row_hidden filt r.1 r.2))

/-- Per-item restore status, as delivered by the core layer's callbacks;
`restore_done` branches only on `access_err` and `type_err`, every other
member of `PvStatus` falls through its `for` body. -/
inductive PvStatus where
  | ok
  | access_err
  | type_err
deriving DecidableEq

/-- The error aggregation of `restore_done` (restore.py lines 193-228):
`error` starts `False`; iterating the per-item statuses, an `access_err`
item assigns `error = not forced` and a `type_err` item assigns
`error = True`; other statuses leave it unchanged. -/
def restore_done_error (status : List (String × PvStatus)) (forced : Bool) :
    Bool :=
  status.foldl
    (fun error p =>
      match p.2 with
      | PvStatus.access_err => !forced
      | PvStatus.type_err => true
      | PvStatus.ok => error)
    false

/-- The subset restriction of `do_restore` (restore.py lines 113-120):
`pvs_to_restore` starts as a copy of the file's `pvs_list`; when a
`pvs_list` argument was given, every stored item whose macro-substituted
name is not in it is popped.  `subst` is
`SnapshotPv.macros_substitution(·, macros)`, opaque here. -/
def do_restore_resolve (pvs_in_file : List (String × Int))
    (subst : String → String) (pvs_list : Option (List String)) :
    List (String × Int) :=
  match pvs_list with
  | none => pvs_in_file
  | some subset => pvs_in_file.filter (fun p => decide (subst p.1 ∈ subset))

/-- Helper for C9: the index-line fold never shrinks the stream content. -/
theorem idx_foldl_length_ge (es : List (String × String)) :
    ∀ acc : String,
      acc.length ≤ (es.foldl (fun acc e => acc ++ idx_line e.1 e.2) acc).length := by
  induction es with
  | nil => intro acc; exact Nat.le_refl _
  | cons e rest ih =>
      intro acc
      refine Nat.le_trans ?_ (ih (acc ++ idx_line e.1 e.2))
      simp [String.length_append]

/-- Helper for C9: once one file was globbed, at least 3 characters have
been written when the seek executes. -/
theorem idx_content_cons_ge (e : String × String)
    (es : List (String × String)) : 3 ≤ (idx_content (e :: es)).length := by
  have h1 := idx_foldl_length_ge es ("[\n" ++ idx_line e.1 e.2)
  have h2 : 3 ≤ ("[\n" ++ idx_line e.1 e.2).length := by
    have ha : "[\n".length = 2 := rfl
    have hb : "[\x22".length = 2 := rfl
    have hc : "\x22,".length = 2 := rfl
    have hd : "],\n".length = 3 := rfl
    simp only [idx_line, String.length_append, ha, hb, hc, hd]
    omega
  simpa only [idx_content, List.foldl_cons] using Nat.le_trans h2 h1

/-- C1: the comment criterion of `filter_file_list_selector` is claimed to
pass exactly when the comment filter text is empty or a substring of the
row's comment, independently of the other filter fields; the code instead
tests the *name* filter text against the comment, so a row whose comment
equals the comment filter is hidden when the name filter text (here
`"a"`, which does match the file name) is not inside the comment, and a
row whose comment does not contain the comment filter (`"zzz"`) stays
visible when the name filter is empty. -/
theorem C1_comment_filter_tests_name_text :
    row_hidden ⟨"a", "hello", []⟩ "abc.snap" ⟨"hello", []⟩ = true
    ∧ pyIn "hello" "hello" = true
    ∧ row_hidden ⟨"", "zzz", []⟩ "abc.snap" ⟨"hello", []⟩ = false
    ∧ pyIn "zzz" "hello" = false := by decide

/-- C2: reconciliation is claimed idempotent — a second pass with no
filesystem change yields an empty changed-set.  On a directory whose one
file (`mtime` 2) is already listed with stored `modif_time` 1, the first
pass re-parses it but `update_file_list_selector` never refreshes the
stored `modif_time` of an existing entry, so the second pass re-parses
the same file again: its changed-set is the same singleton, not empty. -/
theorem C2_second_reconcile_changed_set_nonempty :
    (reconcile "current.req" [⟨"current_a.snap", 2, none, some "c", some [], [], []⟩]
      ((reconcile "current.req"
        [⟨"current_a.snap", 2, none, some "c", some [], [], []⟩]
        ⟨[("current_a.snap", ⟨[], ⟨none, "c", []⟩, 1⟩)], []⟩).1)).2
    = [("current_a.snap", ⟨[], ⟨none, "c", []⟩, 2⟩)] := by decide

/-- C3 counterexample: after adding file `f.snap` with label `L` and then
deleting it (`evt_delete_files` pops the table entry without touching the
suggestion list), the table is empty yet `L` is still suggested — the
suggestion state does not equal the set of files carrying each label. -/
theorem C3_deleted_file_labels_kept :
    (apply_ops ⟨[], []⟩
      [RegOp.upd "f.snap" ⟨[], ⟨none, "", ["L"]⟩, 0⟩,
       RegOp.del "f.snap"]).table = []
    ∧ (apply_ops ⟨[], []⟩
      [RegOp.upd "f.snap" ⟨[], ⟨none, "", ["L"]⟩, 0⟩,
       RegOp.del "f.snap"]).existing_labels = ["L"] := by decide

/-- C4: the claim makes the aggregated restore result an error state
whenever a `type_err` item is present, independent of iteration order.
In `restore_done` the flag is overwritten, not accumulated: with
`forced = true`, an `access_err` delivered after a `type_err` resets
`error` to `False`, so the same status multiset yields success in one
order and error in the other. -/
theorem C4_error_flag_overwritten :
    restore_done_error
      [("a", PvStatus.type_err), ("b", PvStatus.access_err)] true = false
    ∧ restore_done_error
      [("b", PvStatus.access_err), ("a", PvStatus.type_err)] true = true := by
  decide

/-- C5 counterexample: a candidate whose header names a *different*
request file (`other.req`) is still admitted to the table because its
file name starts with the current request's stem plus underscore — the
metadata value does not take precedence over prefix matching. -/
theorem C5_mismatched_metadata_still_admitted :
    (get_save_files "current.req"
      [⟨"current_1.snap", 5, some "other.req", none, none, [], []⟩] []).1
    = [("current_1.snap", ⟨[], ⟨some "other.req", "", []⟩, 5⟩)]
    ∧ (some "other.req" : Option String) ≠ some "current.req" := by decide

/-- C7: with a non-`None` subset list, `do_restore` hands to the restore
call exactly the stored items whose macro-substituted names are members
of the subset: membership is decided on `subst`-applied names, for every
substitution function. -/
theorem C7_restore_subset_membership :
    ∀ (pvs : List (String × Int)) (subst : String → String)
      (subset : List String) (p : String × Int),
      p ∈ do_restore_resolve pvs subst (some subset) ↔
        p ∈ pvs ∧ subst p.1 ∈ subset := by
  intro pvs subst subset p
  simp [do_restore_resolve, List.mem_filter]

/-- C9: with an empty glob, `gen_index_file` has written only the two
characters `[\n` when it executes `seek(tell()-3)`, a negative target
offset, so it raises instead of producing an index; with at least one
candidate file the seek target is non-negative and an index file is
produced. -/
theorem C9_gen_index_empty_glob :
    gen_index_file [] = Except.error "negative seek position"
    ∧ ∀ (e : String × String) (es : List (String × String)),
        (gen_index_file (e :: es)).isOk = true := by
  constructor
  · rfl
  · intro e es
    have hlen := idx_content_cons_ge e es
    simp only [gen_index_file]
    rw [if_neg (by omega)]
    rfl

/-- C10: `start_file_list_update_new` rebinds its local variable to a
fresh set and only ever updates that set, so the shared
`existing_labels` list in `common_settings` is exactly what it was
before the call, whatever the index data contains. -/
theorem C10_shared_labels_unchanged :
    ∀ (s : GuiState) (idx : List (String × FileMeta)),
      (start_file_list_update_new s idx).existing_labels =
        s.existing_labels := by
  intro s idx; rfl

/-- C6: a row survives a non-empty label filter only if it carries every
requested label (a subset test), and with an empty label filter the
hidden decision does not depend on the row's labels at all. -/
theorem C6_label_filter_subset :
    ∀ (filt : FileFilter) (fn : String) (meta : FileMeta),
      (filt.keys ≠ [] → row_hidden filt fn meta = false →
        ∀ k ∈ filt.keys, k ∈ meta.labels)
      ∧ (filt.keys = [] → ∀ labs labs' : List String,
          row_hidden filt fn ⟨meta.comment, labs⟩
            = row_hidden filt fn ⟨meta.comment, labs'⟩) := by
  intro filt fn meta
  constructor
  · intro hk hvis k hkmem
    by_contra hnot
    have hne : filt.keys.isEmpty = false := by
      cases hkeys : filt.keys with
      | nil => exact absurd hkeys hk
      | cons a l => simp [hkeys]
    have h3 : (!filt.keys.isEmpty
        && !(filt.keys.all fun x => decide (x ∈ meta.labels))) = true := by
      simp only [hne, Bool.not_false, Bool.true_and, Bool.not_eq_true']
      cases hall : filt.keys.all (fun x => decide (x ∈ meta.labels)) with
      | false => rfl
      | true => exact absurd (by simpa using List.all_eq_true.mp hall k hkmem) hnot
    simp only [row_hidden] at hvis
    by_cases h1 : (filt.name != "" && !(pyIn filt.name fn)) = true
    · rw [if_pos h1] at hvis
      simp at hvis
    · rw [if_neg h1] at hvis
      by_cases h2 : (filt.comment != "" && !(pyIn filt.name meta.comment)) = true
      · rw [if_pos h2] at hvis
        simp at hvis
      · rw [if_neg h2, if_pos h3] at hvis
        simp at hvis
  · intro hk labs labs'
    simp [row_hidden, hk]

/-- Helper: a successful table lookup is a table member. -/
theorem lookupTable_mem :
    ∀ (t : List (String × Entry)) (fn : String) (e : Entry),
      lookupTable t fn = some e → (fn, e) ∈ t := by
  intro t
  induction t with
  | nil => intro fn e h; simp [lookupTable] at h
  | cons p rest ih =>
      intro fn e h
      simp only [lookupTable] at h
      by_cases hp : p.1 = fn
      · rw [if_pos hp] at h
        have : (fn, e) = p := by
          cases p
          simp only at hp
          exact Prod.ext hp.symm (Option.some.inj h).symm
        rw [this]
        exact List.mem_cons_self ..
      · rw [if_neg hp] at h
        exact List.mem_cons_of_mem _ (ih fn e h)

/-- Helper: the pruning loop never drops a label that some file of the
table still carries. -/
theorem labels_prune_keeps (tbl : List (String × Entry)) :
    ∀ (toRem : List String) (acc : List String) (l : String),
      l ∈ acc → (∃ p ∈ tbl, l ∈ p.2.meta.labels) →
      l ∈ labels_prune tbl toRem acc := by
  intro toRem
  induction toRem with
  | nil => intro acc l hin _; exact hin
  | cons x xs ih =>
      intro acc l hin huse
      simp only [labels_prune, List.foldl_cons]
      have step :
          l ∈ (if tbl.all (fun p => decide (x ∉ p.2.meta.labels)) then
            acc.erase x else acc) := by
        by_cases hx : tbl.all (fun p => decide (x ∉ p.2.meta.labels)) = true
        · rw [if_pos hx]
          have hlx : l ≠ x := by
            rintro rfl
            rcases huse with ⟨p, hp, hl⟩
            have := List.all_eq_true.mp hx p hp
            simp only [decide_eq_true_eq] at this
            exact this hl
          exact (List.mem_erase_of_ne hlx).mpr hin
        · rw [if_neg hx]; exact hin
      exact ih _ l step huse

/-- Helper: a single `update_file_list_selector` step (add or modify of
one file) preserves soundness of the label suggestions. -/
theorem update_one_sound (s : RegState) (fn : String) (d : Entry)
    (hs : labels_sound s) : labels_sound (update_one s fn d) := by
  cases hlk : lookupTable s.table fn with
  | none =>
      intro p hp l hl
      simp only [update_one, hlk] at hp ⊢
      rcases List.mem_append.mp hp with h | h
      · exact List.mem_append_left _ (hs p h l hl)
      · have hpd : p = (fn, d) := List.mem_singleton.mp h
        subst hpd
        by_cases hin : l ∈ s.existing_labels
        · exact List.mem_append_left _ hin
        · apply List.mem_append_right
          simp only [List.mem_filter, List.mem_dedup, decide_eq_true_eq]
          exact ⟨hl, hin⟩
  | some old =>
      intro p hp l hl
      simp only [update_one, hlk] at hp ⊢
      apply labels_prune_keeps
      · simp only [table_replace] at hp
        rcases List.mem_map.mp hp with ⟨q, hq, hpq⟩
        by_cases hqf : q.1 = fn
        · rw [if_pos hqf] at hpq
          have hld : l ∈ d.meta.labels := by
            rw [← hpq] at hl
            simpa using hl
          by_cases hold : l ∈ old.meta.labels
          · exact List.mem_append_left _
              (hs (fn, old) (lookupTable_mem _ _ _ hlk) l hold)
          · apply List.mem_append_right
            simp only [List.mem_filter, List.mem_dedup, decide_eq_true_eq]
            exact ⟨hld, hold⟩
        · rw [if_neg hqf] at hpq
          rw [← hpq] at hl
          exact List.mem_append_left _ (hs q hq l hl)
      · exact ⟨p, hp, hl⟩

/-- Helper: deleting a file (which leaves `existing_labels` untouched)
preserves soundness of the label suggestions. -/
theorem delete_file_sound (s : RegState) (fn : String)
    (hs : labels_sound s) : labels_sound (delete_file s fn) := by
  intro p hp l hl
  exact hs p (List.mem_of_mem_filter hp) l hl

/-- C3, amended: along every sequence of add/modify/delete operations the
suggestion list stays a *superset* of the labels in use — every label
carried by a file currently in the table is suggested (the pruning loop
only ever drops labels no file carries).  The claimed equality fails:
deletion never prunes, see the counterexample. -/
theorem C3_amended_labels_superset :
    ∀ (ops : List RegOp) (s : RegState),
      labels_sound s → labels_sound (apply_ops s ops) := by
  intro ops
  induction ops with
  | nil => intro s hs; exact hs
  | cons op rest ih =>
      intro s hs
      simp only [apply_ops, List.foldl_cons]
      have h1 : labels_sound (apply_op s op) := by
        cases op with
        | upd fn d => exact update_one_sound s fn d hs
        | del fn => exact delete_file_sound s fn hs
      exact ih (apply_op s op) h1

/-- Witness for C3's amended theorem at a concrete state and operation
sequence. -/
theorem C3_amended_labels_superset_witness :
    labels_sound (apply_ops ⟨[], []⟩
      [RegOp.upd "a.snap" ⟨[], ⟨none, "", ["shift1"]⟩, 0⟩,
       RegOp.upd "a.snap" ⟨[], ⟨none, "", ["shift2"]⟩, 1⟩,
       RegOp.del "a.snap"]) :=
  C3_amended_labels_superset
    [RegOp.upd "a.snap" ⟨[], ⟨none, "", ["shift1"]⟩, 0⟩,
     RegOp.upd "a.snap" ⟨[], ⟨none, "", ["shift2"]⟩, 1⟩,
     RegOp.del "a.snap"]
    ⟨[], []⟩ (by intro p hp; simp at hp)

/-- Helper: every entry of the changed-set produced by the scan loop
comes from a directory file that was new or stale and passed the
admission test, and stores exactly that file's parsed data. -/
theorem get_save_files_go_parsed_sub (req : String)
    (current : List (String × Entry)) :
    ∀ (ds : List SnapFile) (pacc : List (String × Entry))
      (eacc : List (String × List String)) (fn : String) (e : Entry),
      (fn, e) ∈ (get_save_files_go req current ds pacc eacc).1 →
      (fn, e) ∈ pacc ∨ ∃ g, g ∈ ds ∧ g.name = fn ∧ e = mkEntry g ∧
        needsParse current g = true ∧ file_matches req g = true := by
  intro ds
  induction ds with
  | nil =>
      intro pacc eacc fn e h
      exact Or.inl h
  | cons f rest ih =>
      intro pacc eacc fn e h
      simp only [get_save_files_go] at h
      by_cases hc : (needsParse current f && file_matches req f) = true
      · rw [if_pos hc] at h
        rcases (by simpa using hc :
          needsParse current f = true ∧ file_matches req f = true) with ⟨hnp, hfm⟩
        have hnew : (fn, e) ∈ pacc ++ [(f.name, mkEntry f)] →
            (fn, e) ∈ pacc ∨ ∃ g, g ∈ f :: rest ∧ g.name = fn ∧
              e = mkEntry g ∧ needsParse current g = true ∧
              file_matches req g = true := by
          intro hm
          rcases List.mem_append.mp hm with h' | h'
          · exact Or.inl h'
          · have hpair := List.mem_singleton.mp h'
            have hp2 : fn = f.name ∧ e = mkEntry f := by simpa using hpair
            exact Or.inr ⟨f, List.mem_cons_self .., hp2.1.symm, hp2.2, hnp, hfm⟩
        by_cases hcap : (pacc ++ [(f.name, mkEntry f)]).length > 10
        · rw [if_pos hcap] at h
          exact hnew h
        · rw [if_neg hcap] at h
          rcases ih _ _ fn e h with h' | ⟨g, hg, hrest⟩
          · exact hnew h'
          · exact Or.inr ⟨g, List.mem_cons_of_mem _ hg, hrest⟩
      · rw [if_neg hc] at h
        rcases ih _ _ fn e h with h' | ⟨g, hg, hrest⟩
        · exact Or.inl h'
        · exact Or.inr ⟨g, List.mem_cons_of_mem _ hg, hrest⟩

/-- Helper: every entry of the error report produced by the scan loop
comes from a new-or-stale, admitted directory file whose parser returned
a non-empty error list. -/
theorem get_save_files_go_errs_sub (req : String)
    (current : List (String × Entry)) :
    ∀ (ds : List SnapFile) (pacc : List (String × Entry))
      (eacc : List (String × List String)) (fn : String)
      (es : List String),
      (fn, es) ∈ (get_save_files_go req current ds pacc eacc).2 →
      (fn, es) ∈ eacc ∨ ∃ g, g ∈ ds ∧ g.name = fn ∧ es = g.parseErr ∧
        g.parseErr ≠ [] := by
  intro ds
  induction ds with
  | nil =>
      intro pacc eacc fn es h
      exact Or.inl h
  | cons f rest ih =>
      intro pacc eacc fn es h
      simp only [get_save_files_go] at h
      by_cases hc : (needsParse current f && file_matches req f) = true
      · rw [if_pos hc] at h
        have hnew : (fn, es) ∈ (if f.parseErr.isEmpty then eacc
            else eacc ++ [(f.name, f.parseErr)]) →
            (fn, es) ∈ eacc ∨ ∃ g, g ∈ f :: rest ∧ g.name = fn ∧
              es = g.parseErr ∧ g.parseErr ≠ [] := by
          intro hm
          by_cases hpe : f.parseErr.isEmpty = true
          · rw [if_pos hpe] at hm
            exact Or.inl hm
          · rw [if_neg hpe] at hm
            rcases List.mem_append.mp hm with h' | h'
            · exact Or.inl h'
            · have hpair := List.mem_singleton.mp h'
              have hp2 : fn = f.name ∧ es = f.parseErr := by simpa using hpair
              refine Or.inr ⟨f, List.mem_cons_self .., hp2.1.symm, hp2.2, ?_⟩
              intro hnil
              exact hpe (by simp [hnil])
        by_cases hcap : (pacc ++ [(f.name, mkEntry f)]).length > 10
        · rw [if_pos hcap] at h
          exact hnew h
        · rw [if_neg hcap] at h
          rcases ih _ _ fn es h with h' | ⟨g, hg, hrest⟩
          · exact hnew h'
          · exact Or.inr ⟨g, List.mem_cons_of_mem _ hg, hrest⟩
      · rw [if_neg hc] at h
        rcases ih _ _ fn es h with h' | ⟨g, hg, hrest⟩
        · exact Or.inl h'
        · exact Or.inr ⟨g, List.mem_cons_of_mem _ hg, hrest⟩

/-- C5, amended: a candidate file is admitted to the registry table only
if its header metadata names the current request file *or* its file name
starts with the request name's stem followed by an underscore; the two
tests are a plain disjunction, so the prefix test applies whether or not
the metadata field is present (see the counterexample for a file whose
mismatched metadata is overridden by a matching prefix). -/
theorem C5_amended_admission_sound :
    ∀ (req : String) (dir : List SnapFile) (table : List (String × Entry))
      (fn : String) (e : Entry),
      (fn, e) ∈ (get_save_files req dir table).1 →
      ∃ g, g ∈ dir ∧ g.name = fn ∧
        (g.reqName = some req
          ∨ pyStartsWith g.name (reqStem req ++ "_") = true) := by
  intro req dir table fn e h
  rcases get_save_files_go_parsed_sub req table dir [] [] fn e h with
    h' | ⟨g, hg, hgn, _, _, hfm⟩
  · simp at h'
  · refine ⟨g, hg, hgn, ?_⟩
    cases hr : g.reqName with
    | none =>
        simp only [file_matches, hr] at hfm
        exact Or.inr (by simpa using hfm)
    | some r =>
        simp only [file_matches, hr] at hfm
        rcases (by simpa using hfm :
          r = req ∨ pyStartsWith g.name (reqStem req ++ "_") = true) with h1 | h1
        · exact Or.inl (by rw [h1])
        · exact Or.inr h1

/-- Witness for C5's amended theorem at a concrete admitted file. -/
theorem C5_amended_admission_sound_witness :
    ∃ g, g ∈ [(⟨"x.snap", 7, some "current.req", none, none, [], []⟩ : SnapFile)]
      ∧ SnapFile.name g = "x.snap"
      ∧ (SnapFile.reqName g = some "current.req"
          ∨ pyStartsWith (SnapFile.name g) (reqStem "current.req" ++ "_") = true) :=
  C5_amended_admission_sound "current.req"
    [⟨"x.snap", 7, some "current.req", none, none, [], []⟩] [] "x.snap"
    (mkEntry ⟨"x.snap", 7, some "current.req", none, none, [], []⟩)
    (by decide)

/-- C8: a candidate accepted during reconciliation whose parsed header
lacks the `comment` or `labels` field is still entered into the table,
with the missing comment defaulting to `""` and missing labels to `[]`,
and the absence of these fields contributes nothing to the error report
(given the parser itself reported no errors for the file). -/
theorem C8_missing_fields_default :
    ∀ (req : String) (dir : List SnapFile) (table : List (String × Entry))
      (f : SnapFile) (e : Entry),
      nodupNames dir → f ∈ dir →
      (f.name, e) ∈ (get_save_files req dir table).1 →
      f.parseErr = [] →
      (f.comment = none → e.meta.comment = "")
      ∧ (f.labels = none → e.meta.labels = [])
      ∧ ∀ es, (f.name, es) ∉ (get_save_files req dir table).2 := by
  intro req dir table f e hnd hf hmem herr
  rcases get_save_files_go_parsed_sub req table dir [] [] f.name e hmem with
    h' | ⟨g, hg, hgn, hge, _, _⟩
  · simp at h'
  · have hfg : g = f := List.inj_on_of_nodup_map hnd hg hf hgn
    subst hfg
    refine ⟨?_, ?_, ?_⟩
    · intro hc
      rw [hge]
      simp [mkEntry, hc]
    · intro hlab
      rw [hge]
      simp [mkEntry, hlab]
    · intro es hmem2
      rcases get_save_files_go_errs_sub req table dir [] [] g.name es hmem2 with
        h'' | ⟨g', hg', hgn', hes, hne⟩
      · simp at h''
      · have hgg : g' = g := List.inj_on_of_nodup_map hnd hg' hg hgn'
        subst hgg
        exact hne herr

/-- Witness for C8 at a concrete candidate file missing both optional
header fields. -/
theorem C8_missing_fields_default_witness :
    ((⟨"current_b.snap", 3, none, none, none, [("pv", 1)], []⟩ : SnapFile).comment
        = none →
      (mkEntry ⟨"current_b.snap", 3, none, none, none, [("pv", 1)], []⟩).meta.comment
        = "")
    ∧ ((⟨"current_b.snap", 3, none, none, none, [("pv", 1)], []⟩ : SnapFile).labels
        = none →
      (mkEntry ⟨"current_b.snap", 3, none, none, none, [("pv", 1)], []⟩).meta.labels
        = [])
    ∧ ∀ es, ("current_b.snap", es) ∉
        (get_save_files "current.req"
          [⟨"current_b.snap", 3, none, none, none, [("pv", 1)], []⟩] []).2 :=
  C8_missing_fields_default "current.req"
    [⟨"current_b.snap", 3, none, none, none, [("pv", 1)], []⟩] []
    ⟨"current_b.snap", 3, none, none, none, [("pv", 1)], []⟩
    (mkEntry ⟨"current_b.snap", 3, none, none, none, [("pv", 1)], []⟩)
    (by simp [nodupNames]) (by simp) (by decide) rfl

/-- Witness for C6 at a concrete filter and row. -/
theorem C6_label_filter_subset_witness :
    row_hidden ⟨"", "", ["a"]⟩ "f.snap" ⟨"c", ["a", "b"]⟩ = false
    ∧ "a" ∈ (FileMeta.mk "c" ["a", "b"]).labels := by
  refine ⟨by decide, ?_⟩
  exact (C6_label_filter_subset ⟨"", "", ["a"]⟩ "f.snap" ⟨"c", ["a", "b"]⟩).1
    (by decide) (by decide) "a" (by decide)

end Snapshot
